import Mathlib

set_option maxRecDepth 4000

/- Verification of the tarotApp backend (src/backend/main.py).

   Shallow embedding: Python strings are modelled as `List Char`.  The two
   `re` operations of `normalize_output` are modelled by executable functions
   specialised to the exact patterns appearing in the source, with the
   scanning/greediness behaviour of `re.sub` reproduced (leftmost match,
   continue after the end of each replaced region, `^`-anchored pattern can
   match only once).  Case-insensitive matching (`re.IGNORECASE`), `\s` and
   `str.strip()` are modelled at ASCII level (`Char.toLower` and the six
   ASCII whitespace characters), which covers all string constants used by
   the program.  Fallible operations (Python indexing `req.cards[0]`, which
   raises on an empty list) are modelled with `Option`. -/

/-- The character class of Python `\s` / `str.strip()` at ASCII level:
space, tab, newline, carriage return, vertical tab, form feed. -/
def isSpace (c : Char) : Bool :=
  c == ' ' || c == '\t' || c == '\n' || c == '\r' || c == '\x0b' || c == '\x0c'

/-- Left part of Python `str.strip()`. -/
def stripLeft (l : List Char) : List Char := l.dropWhile isSpace

/-- Right part of Python `str.strip()`. -/
def stripRight (l : List Char) : List Char := (l.reverse.dropWhile isSpace).reverse

/-- Python `str.strip()`. -/
def pyStrip (l : List Char) : List Char := stripRight (stripLeft l)

/-- Case-insensitive literal match of the pattern (first argument, stored
lower-case) against the front of the text, as `re.IGNORECASE` does for an
ASCII literal alternative. -/
def ciStarts : List Char → List Char → Bool
  | [], _ => true
  | _ :: _, [] => false
  | p :: ps, c :: cs => (Char.toLower c == p) && ciStarts ps cs

/-- Plain (case-sensitive) literal match at the front of the text. -/
def startsList : List Char → List Char → Bool
  | [], _ => true
  | _ :: _, [] => false
  | p :: ps, c :: cs => (p == c) && startsList ps cs

/-- Python `needle in text` for strings. -/
def containsList (needle : List Char) : List Char → Bool
  | [] => needle.isEmpty
  | c :: rest => startsList needle (c :: rest) || containsList needle rest

/-- The alternatives of the cheerful-opener pattern of `normalize_output`
(main.py line 104), lower-cased, in the order they appear in the pattern. -/
def openersLC : List (List Char) :=
  [("certainly!").toList, ("sure!").toList, ("of course!").toList,
   ("absolutely!").toList, ("okay!").toList, ("alright!").toList]

/-- `re.sub(r"^\s*(Certainly!|Sure!|Of course!|Absolutely!|Okay!|Alright!)[^\n]*\n+", "", text, flags=re.IGNORECASE)`
(main.py lines 103-108, before the trailing `.strip()`).  Since the pattern is
anchored at the start of the string and `re.IGNORECASE` is set but not
`re.MULTILINE`, at most one occurrence is replaced.  The greedy `\s*`,
`[^\n]*` and `\n+` are deterministic here because no opener starts with a
whitespace character and `[^\n]*` is followed by a mandatory newline. -/
def dropOpenerCore (l : List Char) : List Char :=
  match openersLC.find? (fun p => ciStarts p (l.dropWhile isSpace)) with
  | some p =>
    if ((((l.dropWhile isSpace).drop p.length).dropWhile (fun c => c != '\n')).isEmpty) then l
    else (((l.dropWhile isSpace).drop p.length).dropWhile (fun c => c != '\n')).dropWhile
      (fun c => c == '\n')
  | none => l

/-- The alternatives `(Past|Present|Future)`, lower-cased, in pattern order. -/
def ppfWords : List (List Char) := [("past").toList, ("present").toList, ("future").toList]

/-- The lazy `.*?\*\*` step of the Past/Present/Future pattern: scan forward
for the first occurrence of `**`; `.` does not match a newline, so the scan
fails if a newline is reached first. -/
def findStars : List Char → Option (List Char)
  | [] => none
  | c :: rest =>
    if c = '*' ∧ rest.head? = some '*' then some rest.tail
    else if c = '\n' then none
    else findStars rest

/-- The `:?` step of the Past/Present/Future pattern. -/
def afterColon (l : List Char) : List Char :=
  match l with
  | [] => []
  | c :: r => if c = ':' then r else c :: r

/-- Steps `.*?\*\*:?(\s*)` of the Past/Present/Future pattern. -/
def matchAfterDash (r3 : List Char) : Option (List Char) :=
  match findStars r3 with
  | some r4 => some ((afterColon r4).dropWhile isSpace)
  | none => none

/-- Steps `\s*—.*?\*\*:?(\s*)` of the Past/Present/Future pattern. -/
def matchAfterWord (r2 : List Char) : Option (List Char) :=
  match r2.dropWhile isSpace with
  | [] => none
  | c :: r3 => if c = '—' then matchAfterDash r3 else none

/-- Steps `\s*(Past|Present|Future)\s*—.*?\*\*:?(\s*)` of the pattern. -/
def matchAfterStars (r0 : List Char) : Option (List Char) :=
  let r1 := r0.dropWhile isSpace
  match ppfWords.find? (fun w => ciStarts w r1) with
  | some w => matchAfterWord (r1.drop w.length)
  | none => none

/-- One attempt to match `r"\*\*\s*(Past|Present|Future)\s*—.*?\*\*:?(\s*)"`
(main.py line 114, `re.IGNORECASE`) at the start of the text; `some rem`
returns what follows the matched (hence deleted) region. -/
def matchPPFAt : List Char → Option (List Char)
  | [] => none
  | [_] => none
  | c1 :: c2 :: r0 => if c1 = '*' ∧ c2 = '*' then matchAfterStars r0 else none

/-- `re.sub` scanning loop for the Past/Present/Future pattern: leftmost
match, deletion, continue after the deleted region.  Structural recursion on
a fuel argument; every match consumes at least two characters, so fuel equal
to the length of the text suffices (proved below). -/
def ppfSubFuel : Nat → List Char → List Char
  | _, [] => []
  | 0, l => l
  | fuel + 1, c :: rest =>
    match matchPPFAt (c :: rest) with
    | some rem => ppfSubFuel fuel rem
    | none => c :: ppfSubFuel fuel rest

/-- `re.sub(r"\*\*\s*(Past|Present|Future)\s*—.*?\*\*:?(\s*)", "", text, flags=re.IGNORECASE)`
(main.py lines 113-118, before the trailing `.strip()`). -/
def ppfSub (l : List Char) : List Char := ppfSubFuel l.length l

/-- `TarotCardInput` (main.py lines 21-31). -/
structure TarotCardInput where
  name : List Char
  suit : Option (List Char)
  number : Option Int
  position : List Char
  is_reversed : Bool
  upright_meaning : List Char
  reversed_meaning : List Char
  keywords : Option (List Char)
  imageName : Option (List Char)
  arcana : Option (List Char)
deriving DecidableEq

/-- `SpreadRequest` (main.py lines 34-36). -/
structure SpreadRequest where
  spread_type : List Char
  cards : List TarotCardInput
deriving DecidableEq

/-- `"Reversed" if c.is_reversed else "Upright"` (main.py lines 50, 88, 123). -/
def orientationOf (c : TarotCardInput) : List Char :=
  if c.is_reversed then ("Reversed").toList else ("Upright").toList

/-- `c.reversed_meaning if c.is_reversed else c.upright_meaning`
(main.py lines 51, 89). -/
def meaningOf (c : TarotCardInput) : List Char :=
  if c.is_reversed then c.reversed_meaning else c.upright_meaning

/-- The literal `"**Daily Card"` checked by `normalize_output` (line 121). -/
def dailyMarker : List Char := ("**Daily Card").toList

/-- The header `f"**Daily Card — {c.name} ({orientation}):**"`, as it appears
both in the daily prompt template (line 62) and in the prepended header of
`normalize_output` (line 124). -/
def dailyHeader (c : TarotCardInput) : List Char :=
  ("**Daily Card — ").toList ++ c.name ++ (" (").toList
    ++ orientationOf c ++ ("):**").toList

/-- `is_daily = (req.spread_type == "daily") or (n == 1)` as computed inside
`build_prompt` (main.py line 46). -/
def build_prompt_is_daily (req : SpreadRequest) : Bool :=
  (req.spread_type == ("daily").toList) || (req.cards.length == 1)

/-- `is_daily = (req.spread_type == "daily") or (n == 1)` as computed inside
`normalize_output` (main.py line 100). -/
def normalize_is_daily (req : SpreadRequest) : Bool :=
  (req.spread_type == ("daily").toList) || (req.cards.length == 1)

/-- The daily prompt template text before the interpolated header
(main.py lines 53-62); the f-string starts with a newline. -/
def dailyPromptPre : List Char :=
  ("\nYou are a tarot reader. Write an interpretation for a SINGLE CARD daily draw.\n\nSTRICT RULES:\n- Do NOT use Past/Present/Future.\n- Do NOT include greetings or filler like \"Certainly!\", \"Sure!\", \"Of course!\".\n- Do NOT mention that you\x27re an AI.\n- Output ONLY in this exact structure:\n\n").toList

/-- The daily prompt template text between the header and the interpolated
meaning (main.py lines 62-69). -/
def dailyPromptPost : List Char :=
  ("\n<1–2 short paragraphs>\n\n**Overall Message:**\n<1 short paragraph>\n\nCard meaning reference (use as guidance, do not quote verbatim):\n").toList

/-- The interpolated daily-draw f-string of `build_prompt` (main.py lines
53-70) before its trailing `.strip()`; the f-string ends with a newline. -/
def dailyPromptRaw (c : TarotCardInput) : List Char :=
  dailyPromptPre ++ dailyHeader c ++ dailyPromptPost ++ meaningOf c ++ ("\n").toList

/-- The fixed `lines` preamble of the multi-card branch of `build_prompt`
(main.py lines 72-85). -/
def multiHeaderLines : List (List Char) :=
  [("You are a tarot reader. Interpret the following spread.").toList,
   ("").toList,
   ("STRICT RULES:").toList,
   ("- Do NOT include greetings or filler like \"Certainly!\", \"Sure!\", \"Of course!\".").toList,
   ("- For EACH card, output exactly one section in this format:").toList,
   ("  **<Position> — <Card Name> (<Upright/Reversed>):**").toList,
   ("  <1 paragraph interpretation>").toList,
   ("- End with:").toList,
   ("  **Putting It All Together:**").toList,
   ("  <1 paragraph synthesis>").toList,
   ("").toList,
   ("CARDS:").toList]

/-- `f"- Position: {c.position} | Card: {c.name} | Orientation: {orientation} | MeaningRef: {meaning}"`
(main.py lines 90-92). -/
def cardLine (c : TarotCardInput) : List Char :=
  ("- Position: ").toList ++ c.position ++ (" | Card: ").toList ++ c.name
    ++ (" | Orientation: ").toList ++ orientationOf c
    ++ (" | MeaningRef: ").toList ++ meaningOf c

/-- `build_prompt` (main.py lines 44-94).  In the daily branch the source
indexes `req.cards[0]`, which raises `IndexError` on an empty list; that
failure is modelled as `none`. -/
def build_prompt (req : SpreadRequest) : Option (List Char) :=
  if build_prompt_is_daily req then
    match req.cards.head? with
    | some c => some (pyStrip (dailyPromptRaw c))
    | none => none
  else
    some (List.intercalate (("\n").toList) (multiHeaderLines ++ req.cards.map cardLine))

/-- `normalize_output` (main.py lines 98-126).  The source indexes
`req.cards[0]` when the daily branch has to prepend a header; that raises on
an empty card list and is modelled as `none`. -/
def normalize_output (req : SpreadRequest) (text : List Char) : Option (List Char) :=
  let text1 := pyStrip (dropOpenerCore text)
  if normalize_is_daily req then
    let text2 := pyStrip (ppfSub text1)
    if containsList dailyMarker text2 then some (pyStrip text2)
    else
      match req.cards.head? with
      | some c => some (pyStrip (pyStrip (dailyHeader c ++ ('\n' :: text2))))
      | none => none
  else some (pyStrip text1)

/-- One content part of a provider output item; `text` is `None`/missing or a
string (main.py lines 158-161). -/
structure ContentPart where
  text : Option (List Char)
deriving DecidableEq

/-- One provider output item: an optional `type` tag and optional `content`
list (main.py lines 155-161). -/
structure OutputItem where
  type : Option (List Char)
  content : Option (List ContentPart)
deriving DecidableEq

/-- Outcome of the single `client.responses.create` call: a successful
response (its `output` list) or a raised error carrying `str(e)`. -/
inductive UpstreamResult where
  | ok : List OutputItem → UpstreamResult
  | err : List Char → UpstreamResult

/-- Result of the `/interpret_spread` route: a 200 `SpreadResponse` body or a
raised `HTTPException` with status code and detail. -/
inductive HttpOutcome where
  | success : List Char → HttpOutcome
  | failure : Nat → List Char → HttpOutcome
deriving DecidableEq

/-- `getattr(part, "text", None)`, with `if t:` making a missing or empty
text contribute nothing to the concatenation (main.py lines 159-161). -/
def partText (p : ContentPart) : List Char :=
  match p.text with
  | some t => t
  | none => []

/-- Text parts contributed by one output item: only items whose `type` is
`"message"` contribute (main.py lines 156-161). -/
def itemTexts (item : OutputItem) : List (List Char) :=
  if item.type == some (("message").toList) then (item.content.getD []).map partText
  else []

/-- `"".join(text_parts)` over all output items (main.py lines 154-163). -/
def extractText (output : List OutputItem) : List Char :=
  ((output.map itemTexts).flatten).flatten

/-- The fixed system preamble of the completion call (main.py lines 143-147). -/
def modelPreamble : List Char :=
  ("You are a tarot reader. Be warm, clear, and realistic. Follow the user-provided STRICT RULES exactly.\n\n").toList

/-- The fallback apology substituted for an empty successful response
(main.py line 165). -/
def fallbackText : List Char :=
  ("I\x27m sorry, I couldn\x27t interpret this spread right now.").toList

/-- Detail of the 400 response (main.py line 133). -/
def noCardsDetail : List Char := ("No cards provided").toList

/-- Prefix of the 500 detail `f"OpenAI request failed: {e}"` (main.py line 151). -/
def failDetailPre : List Char := ("OpenAI request failed: ").toList

/-- The `/interpret_spread` route (main.py lines 130-169), parameterised by
the behaviour of the external completion call.  `none` models an unhandled
Python exception (never reached: the empty-cards case returns 400 first). -/
def interpret_spread (call : List Char → UpstreamResult) (req : SpreadRequest) :
    Option HttpOutcome :=
  if req.cards.isEmpty then some (HttpOutcome.failure 400 noCardsDetail)
  else
    match build_prompt req with
    | none => none
    | some prompt =>
      match call (modelPreamble ++ prompt) with
      | UpstreamResult.err e => some (HttpOutcome.failure 500 (failDetailPre ++ e))
      | UpstreamResult.ok out =>
        let text0 := pyStrip (extractText out)
        let text1 := if text0.isEmpty then fallbackText else text0
        match normalize_output req text1 with
        | none => none
        | some text2 => some (HttpOutcome.success text2)

/-- A minimal upright card used by concrete instances. -/
def wCardA : TarotCardInput :=
  ⟨("A").toList, none, none, ("Today").toList, false,
   ("beginnings").toList, ("delays").toList, none, none, none⟩

/-- A single-card daily request for `wCardA`. -/
def wReqDaily : SpreadRequest := ⟨("daily").toList, [wCardA]⟩

/-- The Fool, upright (example of claim C4). -/
def wCardFool : TarotCardInput :=
  ⟨("The Fool").toList, none, none, ("Today").toList, false,
   ("new beginnings").toList, ("recklessness").toList, none, none, none⟩

/-- A daily request for The Fool. -/
def wReqFool : SpreadRequest := ⟨("daily").toList, [wCardFool]⟩

/-- The raw model text of the C4 example. -/
def wC4Text : List Char :=
  ("Certainly! Here you go.\n\n**Daily Card — The Fool (Upright):**\nText.").toList

/-- The Sun, reversed (example of claim C5). -/
def wCardSun : TarotCardInput :=
  ⟨("The Sun").toList, none, none, ("Today").toList, true,
   ("joy").toList, ("clouded optimism").toList, none, none, none⟩

/-- A daily request for The Sun, reversed. -/
def wReqSun : SpreadRequest := ⟨("daily").toList, [wCardSun]⟩

/-- A card whose upright meaning ends in whitespace (counterexample of C2). -/
def wCardZq : TarotCardInput :=
  ⟨("A").toList, none, none, ("Today").toList, false,
   ("zq \t").toList, ("delays").toList, none, none, none⟩

/-- A daily request for `wCardZq`. -/
def wReqZq : SpreadRequest := ⟨("daily").toList, [wCardZq]⟩

/-- First card of the multi-card witness request. -/
def wCardP1 : TarotCardInput :=
  ⟨("The Magician").toList, none, none, ("Past").toList, false,
   ("willpower").toList, ("manipulation").toList, none, none, none⟩

/-- Second card of the multi-card witness request. -/
def wCardP2 : TarotCardInput :=
  ⟨("The Tower").toList, none, none, ("Future").toList, true,
   ("upheaval").toList, ("disaster avoided").toList, none, none, none⟩

/-- A two-card non-daily request. -/
def wReqMulti : SpreadRequest := ⟨("three_card").toList, [wCardP1, wCardP2]⟩

/-- An empty request (for claim C8). -/
def wReqEmpty : SpreadRequest := ⟨("three_card").toList, []⟩

/-- Input of the C7 counterexample: free of cheerful openers and already
containing the daily marker, but with a Past header whose removal exposes a
cheerful opener. -/
def wC7Text : List Char :=
  ("**Past — x**:\nSure! hi\n\n**Daily Card — A (Upright):**\nbody").toList

/-- What `normalize_output wReqDaily wC7Text` evaluates to. -/
def wC7Once : List Char :=
  ("Sure! hi\n\n**Daily Card — A (Upright):**\nbody").toList

/-- The decomposition asserted by claim C4 (the spec wording of the cheerful
opener prefix): leading whitespace, a case-insensitive opener, the rest of
that line, one or more newlines (maximal), then the remainder. -/
def openerDecomp (t rest : List Char) : Prop :=
  ∃ ws op mid nl,
    t = ws ++ op ++ mid ++ nl ++ rest ∧
    (∀ c ∈ ws, isSpace c = true) ∧
    op.map Char.toLower ∈ openersLC ∧
    (∀ c ∈ mid, c ≠ '\n') ∧
    nl ≠ [] ∧ (∀ c ∈ nl, c = '\n') ∧
    rest.head? ≠ some '\n'


/-- `ciStarts` only succeeds when the text is at least as long as the pattern. -/
theorem ciStarts_length {p l : List Char} (h : ciStarts p l = true) : p.length ≤ l.length := by
  induction p generalizing l with
  | nil => simp
  | cons a ps ih =>
    cases l with
    | nil => simp [ciStarts] at h
    | cons c cs =>
      simp only [ciStarts, Bool.and_eq_true] at h
      have := ih h.2
      simp only [List.length_cons]
      omega

/-- A successful `ciStarts` determines the lower-casing of the front of the text. -/
theorem ciStarts_map_take {p l : List Char} (h : ciStarts p l = true) :
    (l.take p.length).map Char.toLower = p := by
  induction p generalizing l with
  | nil => simp
  | cons a ps ih =>
    cases l with
    | nil => simp [ciStarts] at h
    | cons c cs =>
      simp only [ciStarts, Bool.and_eq_true, beq_iff_eq] at h
      simp [List.take_succ_cons, ih h.2, h.1]

/-- Converse of `ciStarts_map_take`. -/
theorem ciStarts_of_map_take {p l : List Char} (h : (l.take p.length).map Char.toLower = p) :
    ciStarts p l = true := by
  induction p generalizing l with
  | nil => simp [ciStarts]
  | cons a ps ih =>
    cases l with
    | nil => simp at h
    | cons c cs =>
      simp only [List.length_cons, List.take_succ_cons, List.map_cons,
        List.cons.injEq] at h
      simp [ciStarts, h.1, ih h.2]

/-- `ciStarts` ignores anything appended beyond the pattern length. -/
theorem ciStarts_append_of_le {p l e : List Char} (h : p.length ≤ l.length) :
    ciStarts p (l ++ e) = ciStarts p l := by
  induction p generalizing l with
  | nil => simp [ciStarts]
  | cons a ps ih =>
    cases l with
    | nil => exact absurd h (by simp)
    | cons c cs =>
      have h2 : ps.length ≤ cs.length := by
        simp only [List.length_cons] at h
        omega
      simp only [List.cons_append, ciStarts]
      congr 1
      exact ih h2

/-- In a list of patterns none of which is a proper front of another, at most
one pattern can `ciStarts`-match a given text. -/
theorem ciStarts_unique {ws : List (List Char)}
    (hws : ∀ w ∈ ws, ∀ w2 ∈ ws, w = w2.take w.length → w = w2)
    {w w2 l : List Char} (h1 : w ∈ ws) (h2 : w2 ∈ ws)
    (s1 : ciStarts w l = true) (s2 : ciStarts w2 l = true) : w = w2 := by
  have e1 := ciStarts_map_take s1
  have e2 := ciStarts_map_take s2
  rcases Nat.le_total w.length w2.length with hle | hle
  · refine hws w h1 w2 h2 ?_
    rw [← e2, List.map_take, List.take_take, Nat.min_eq_left hle, ← List.map_take, e1]
  · refine (hws w2 h2 w h1 ?_).symm
    rw [← e1, List.map_take, List.take_take, Nat.min_eq_left hle, ← List.map_take, e2]

/-- No cheerful opener is a proper front of another. -/
theorem openersLC_front_free :
    ∀ w ∈ openersLC, ∀ w2 ∈ openersLC, w = w2.take w.length → w = w2 := by decide

/-- No Past/Present/Future word is a proper front of another. -/
theorem ppfWords_front_free :
    ∀ w ∈ ppfWords, ∀ w2 ∈ ppfWords, w = w2.take w.length → w = w2 := by decide

/-- A `find?` over such patterns is unaffected by extending the text. -/
theorem find?_ciStarts_append {ws : List (List Char)}
    (hws : ∀ w ∈ ws, ∀ w2 ∈ ws, w = w2.take w.length → w = w2)
    {l e w : List Char} (h : ws.find? (fun p => ciStarts p l) = some w) :
    ws.find? (fun p => ciStarts p (l ++ e)) = some w := by
  have hw := List.find?_some h
  have hmem := List.mem_of_find?_eq_some h
  have hw2 : ciStarts w (l ++ e) = true := by
    rw [ciStarts_append_of_le (ciStarts_length hw)]; exact hw
  cases h2 : ws.find? (fun p => ciStarts p (l ++ e)) with
  | none =>
    rw [List.find?_eq_none] at h2
    exact absurd hw2 (h2 w hmem)
  | some w3 =>
    have hw3 := List.find?_some h2
    have hmem3 := List.mem_of_find?_eq_some h2
    exact congrArg some (ciStarts_unique hws hmem3 hmem hw3 hw2)

/-- `startsList` is the boolean of `List.IsPrefix`. -/
theorem startsList_iff {p l : List Char} : startsList p l = true ↔ p <+: l := by
  induction p generalizing l with
  | nil => simp [startsList]
  | cons a ps ih =>
    cases l with
    | nil => simp [startsList]
    | cons c cs =>
      simp [startsList, ih, List.cons_prefix_cons]

/-- `containsList` is the boolean of `List.IsInfix` (Python `in`). -/
theorem containsList_iff {p l : List Char} : containsList p l = true ↔ p <:+: l := by
  induction l with
  | nil => simp [containsList, List.isEmpty_iff]
  | cons c rest ih =>
    simp [containsList, startsList_iff, ih, List.infix_cons_iff]

/-- The first element surviving a `dropWhile` fails the predicate. -/
theorem dropWhile_head_false {α : Type} {p : α → Bool} :
    ∀ {l : List α} {c : α} {rest : List α}, l.dropWhile p = c :: rest → p c = false := by
  intro l
  induction l with
  | nil => intro c rest h; simp at h
  | cons a as ih =>
    intro c rest h
    rw [List.dropWhile_cons] at h
    by_cases hp : p a
    · rw [if_pos hp] at h; exact ih h
    · rw [if_neg hp] at h
      obtain ⟨rfl, -⟩ := List.cons.inj h
      exact Bool.eq_false_iff.mpr hp

/-- `dropWhile` is idempotent. -/
theorem dropWhile_idem {α : Type} {p : α → Bool} (l : List α) :
    (l.dropWhile p).dropWhile p = l.dropWhile p := by
  cases h : l.dropWhile p with
  | nil => simp
  | cons c rest => simp [List.dropWhile_cons, dropWhile_head_false h]

/-- `stripRight` of a text is a front of the text. -/
theorem stripRight_self (l : List Char) : stripRight l <+: l := by
  rw [stripRight, ← List.reverse_suffix, List.reverse_reverse]
  exact List.dropWhile_suffix isSpace

/-- `stripRight` absorbs a trailing whitespace character. -/
theorem stripRight_append_space {x : List Char} {c : Char} (h : isSpace c = true) :
    stripRight (x ++ [c]) = stripRight x := by
  simp [stripRight, List.dropWhile_cons, h]

/-- `stripRight` distributes over an append whose right part does not strip
to nothing. -/
theorem stripRight_append_left {x y : List Char} (h : stripRight y ≠ []) :
    stripRight (x ++ y) = x ++ stripRight y := by
  have h2 : (y.reverse.dropWhile isSpace).isEmpty = false := by
    cases h3 : y.reverse.dropWhile isSpace with
    | nil => exact absurd (by simp [stripRight, h3]) h
    | cons c cs => rfl
  rw [stripRight, List.reverse_append, List.dropWhile_append, h2]
  simp [stripRight]

/-- `stripRight` is idempotent. -/
theorem stripRight_idem (l : List Char) : stripRight (stripRight l) = stripRight l := by
  rw [stripRight, stripRight, List.reverse_reverse, dropWhile_idem]

/-- `stripLeft` keeps a text that starts with a non-whitespace character. -/
theorem stripLeft_cons_false {c : Char} {rest : List Char} (h : isSpace c = false) :
    stripLeft (c :: rest) = c :: rest := by
  simp [stripLeft, List.dropWhile_cons, h]

/-- `pyStrip` is idempotent (`s.strip().strip() == s.strip()`). -/
theorem pyStrip_idem (l : List Char) : pyStrip (pyStrip l) = pyStrip l := by
  rw [pyStrip, pyStrip]
  have h1 : stripLeft (stripRight (stripLeft l)) = stripRight (stripLeft l) := by
    cases h : stripRight (stripLeft l) with
    | nil => simp [stripLeft]
    | cons c rest =>
      obtain ⟨ext, hext⟩ := stripRight_self (stripLeft l)
      rw [h] at hext
      have : isSpace c = false := by
        refine @dropWhile_head_false Char isSpace l c (rest ++ ext) ?_
        rw [← List.cons_append, hext]
        rfl
      exact stripLeft_cons_false this
  rw [h1, stripRight_idem]

/-- A text whose two ends are not whitespace is unchanged by `pyStrip`. -/
theorem pyStrip_eq_self {l : List Char}
    (h1 : ∀ c, l.head? = some c → isSpace c = false)
    (h2 : ∀ c, l.getLast? = some c → isSpace c = false) : pyStrip l = l := by
  have hl : stripLeft l = l := by
    cases l with
    | nil => rfl
    | cons c rest => exact stripLeft_cons_false (h1 c rfl)
  have hr : stripRight l = l := by
    rw [stripRight]
    cases h : l.reverse with
    | nil => simp [List.reverse_eq_nil_iff.mp h]
    | cons c rest =>
      have : l.getLast? = some c := by
        rw [← List.head?_reverse, h]; rfl
      rw [List.dropWhile_cons, if_neg (by simp [h2 c this]), ← h, List.reverse_reverse]
  rw [pyStrip, hl, hr]

/-- An occurrence whose first character is not whitespace survives
`dropWhile isSpace`. -/
theorem infix_dropWhile_isSpace {a : Char} {y l : List Char} (ha : isSpace a = false)
    (h : (a :: y) <:+: l) : (a :: y) <:+: l.dropWhile isSpace := by
  obtain ⟨u, v, rfl⟩ := h
  rw [List.append_assoc, List.dropWhile_append]
  split
  · rw [List.cons_append, List.dropWhile_cons, if_neg (by simp [ha])]
    exact ⟨[], v, by simp⟩
  · exact ⟨u.dropWhile isSpace, v, by simp⟩

/-- An occurrence whose two end characters are not whitespace survives
`pyStrip`. -/
theorem infix_pyStrip {a b : Char} {y l : List Char} (ha : isSpace a = false)
    (hb : isSpace b = false) (h : (a :: (y ++ [b])) <:+: l) :
    (a :: (y ++ [b])) <:+: pyStrip l := by
  have h1 : (a :: (y ++ [b])) <:+: stripLeft l := infix_dropWhile_isSpace ha h
  have hsh : (a :: (y ++ [b])).reverse = b :: (y.reverse ++ [a]) := by
    simp
  have h2 : (b :: (y.reverse ++ [a])) <:+: (stripLeft l).reverse := by
    rw [← hsh, List.reverse_infix]
    exact h1
  have h3 := infix_dropWhile_isSpace hb h2
  rw [pyStrip, stripRight]
  rw [← List.reverse_infix, List.reverse_reverse, hsh]
  exact h3

/-- A front whose two end characters are not whitespace survives `pyStrip`. -/
theorem front_pyStrip {a b : Char} {y l : List Char} (ha : isSpace a = false)
    (hb : isSpace b = false) (h : (a :: (y ++ [b])) <+: l) :
    (a :: (y ++ [b])) <+: pyStrip l := by
  obtain ⟨v, rfl⟩ := h
  have hl : stripLeft (a :: (y ++ [b]) ++ v) = a :: (y ++ [b]) ++ v := by
    rw [List.cons_append]
    exact stripLeft_cons_false ha
  rw [pyStrip, hl]
  by_cases hv : stripRight v = []
  · have hx : stripRight (a :: (y ++ [b])) = a :: (y ++ [b]) := by
      rw [stripRight]
      have : (a :: (y ++ [b])).reverse = b :: (y.reverse ++ [a]) := by simp
      rw [this, List.dropWhile_cons, if_neg (by simp [hb]), ← this, List.reverse_reverse]
    have hvr : (v.reverse.dropWhile isSpace).isEmpty = true := by
      simp only [List.isEmpty_iff]
      have := congrArg List.reverse (show stripRight v = [] from hv)
      simpa [stripRight] using this
    rw [stripRight, List.reverse_append, List.dropWhile_append, if_pos hvr]
    rw [show ((a :: (y ++ [b])).reverse.dropWhile isSpace).reverse
          = stripRight (a :: (y ++ [b])) from rfl, hx]
  · rw [stripRight_append_left hv]
    exact ⟨stripRight v, rfl⟩

/-- Unfolding of `dropOpenerCore` when an opener matches. -/
theorem dropOpenerCore_eq_of_some {l p : List Char}
    (hf : openersLC.find? (fun q => ciStarts q (l.dropWhile isSpace)) = some p) :
    dropOpenerCore l =
      (if ((((l.dropWhile isSpace).drop p.length).dropWhile (fun c => c != '\n')).isEmpty) then l
       else (((l.dropWhile isSpace).drop p.length).dropWhile (fun c => c != '\n')).dropWhile
         (fun c => c == '\n')) := by
  unfold dropOpenerCore
  rw [hf]

/-- Unfolding of `dropOpenerCore` when no opener matches. -/
theorem dropOpenerCore_eq_of_none {l : List Char}
    (hf : openersLC.find? (fun q => ciStarts q (l.dropWhile isSpace)) = none) :
    dropOpenerCore l = l := by
  unfold dropOpenerCore
  rw [hf]

/-- `dropWhile` length bound. -/
theorem length_dropWhile_le {α : Type} (p : α → Bool) (l : List α) :
    (l.dropWhile p).length ≤ l.length :=
  (List.dropWhile_suffix p).length_le

/-- Whitespace characters are fixed by `Char.toLower`. -/
theorem toLower_of_isSpace {c : Char} (h : isSpace c = true) : Char.toLower c = c := by
  simp only [isSpace, Bool.or_eq_true, beq_iff_eq] at h
  rcases h with ((((rfl | rfl) | rfl) | rfl) | rfl) | rfl <;> decide

/-- A list whose lower-casing is a cheerful opener starts with a
non-whitespace character. -/
theorem opener_head_not_space {op : List Char} (h : op.map Char.toLower ∈ openersLC) :
    ∃ o op2, op = o :: op2 ∧ isSpace o = false := by
  cases op with
  | nil => exact absurd h (by decide)
  | cons o op2 =>
    refine ⟨o, op2, rfl, ?_⟩
    by_contra hsp
    have hsp2 : isSpace o = true := by simpa using hsp
    have hh : ∀ w ∈ openersLC, ∀ c, w.head? = some c → isSpace c = false := by decide
    have h3 := hh _ h (Char.toLower o) (by simp)
    rw [toLower_of_isSpace hsp2] at h3
    rw [h3] at hsp2
    exact Bool.false_ne_true hsp2

/-- Forward direction of claim C4: a text admitting the opener-line
decomposition is rewritten by `dropOpenerCore` to exactly the remainder. -/
theorem dropOpenerCore_of_decomp {t rest : List Char} (h : openerDecomp t rest) :
    dropOpenerCore t = rest ∧ rest.length < t.length := by
  obtain ⟨ws, op, mid, nl, rfl, hws, hop, hmid, hnl, hnlall, hrest⟩ := h
  obtain ⟨o, op2, hopshape, ho⟩ := opener_head_not_space hop
  obtain ⟨n, nl2, hnlshape⟩ : ∃ n nl2, nl = n :: nl2 := by
    cases nl with
    | nil => exact absurd rfl hnl
    | cons n nl2 => exact ⟨n, nl2, rfl⟩
  have hn : n = '\n' := hnlall n (by rw [hnlshape]; simp)
  have hR : (ws ++ op ++ mid ++ nl ++ rest).dropWhile isSpace
      = op ++ (mid ++ (nl ++ rest)) := by
    have h1 : ws ++ op ++ mid ++ nl ++ rest = ws ++ (op ++ (mid ++ (nl ++ rest))) := by
      simp [List.append_assoc]
    rw [h1, List.dropWhile_append_of_pos hws, hopshape, List.cons_append,
      List.dropWhile_cons, if_neg (by simp [ho]), ← List.cons_append, ← hopshape]
  have hci : ciStarts (op.map Char.toLower) (op ++ (mid ++ (nl ++ rest))) = true := by
    apply ciStarts_of_map_take
    rw [List.take_left' (List.length_map op Char.toLower).symm]
  have hfind : openersLC.find?
      (fun q => ciStarts q ((ws ++ op ++ mid ++ nl ++ rest).dropWhile isSpace))
      = some (op.map Char.toLower) := by
    rw [hR]
    cases hf : openersLC.find? (fun q => ciStarts q (op ++ (mid ++ (nl ++ rest)))) with
    | none =>
      rw [List.find?_eq_none] at hf
      exact absurd hci (hf _ hop)
    | some w2 =>
      have hs := List.find?_some hf
      exact congrArg some (ciStarts_unique openersLC_front_free
        (List.mem_of_find?_eq_some hf) hop hs hci)
  have hdrop : ((ws ++ op ++ mid ++ nl ++ rest).dropWhile isSpace).drop
      (op.map Char.toLower).length = mid ++ (nl ++ rest) := by
    rw [hR]
    exact List.drop_left' (List.length_map op Char.toLower).symm
  have hafter : (mid ++ (nl ++ rest)).dropWhile (fun c => c != '\n') = nl ++ rest := by
    rw [List.dropWhile_append_of_pos]
    · rw [hnlshape, List.cons_append, List.dropWhile_cons, if_neg (by simp [hn])]
    · intro a hma
      simp only [bne_iff_ne, ne_eq]
      exact hmid a hma
  have hfinal : (nl ++ rest).dropWhile (fun c => c == '\n') = rest := by
    rw [List.dropWhile_append_of_pos]
    · cases rest with
      | nil => rfl
      | cons r rs =>
        have hr : r ≠ '\n' := by
          intro hr2
          exact hrest (by rw [hr2]; rfl)
        rw [List.dropWhile_cons, if_neg (by simp [hr])]
    · intro a hma
      simp [hnlall a hma]
  constructor
  · rw [dropOpenerCore_eq_of_some hfind, hdrop, hafter, if_neg, hfinal]
    rw [hnlshape, List.cons_append]
    simp
  · rw [hopshape, hnlshape]
    simp only [List.length_append, List.length_cons]
    omega

/-- Converse direction of claim C4: if `dropOpenerCore` changes the text,
the text admits the opener-line decomposition. -/
theorem decomp_of_dropOpenerCore_ne {t : List Char} (h : dropOpenerCore t ≠ t) :
    ∃ rest, openerDecomp t rest := by
  cases hf : openersLC.find? (fun q => ciStarts q (t.dropWhile isSpace)) with
  | none => exact absurd (dropOpenerCore_eq_of_none hf) h
  | some p =>
    rw [dropOpenerCore_eq_of_some hf] at h
    by_cases he : ((((t.dropWhile isSpace).drop p.length).dropWhile (fun c => c != '\n')).isEmpty) = true
    · rw [if_pos he] at h
      exact absurd rfl h
    · rw [if_neg he] at h
      refine ⟨(((t.dropWhile isSpace).drop p.length).dropWhile (fun c => c != '\n')).dropWhile
        (fun c => c == '\n'),
        t.takeWhile isSpace, (t.dropWhile isSpace).take p.length,
        ((t.dropWhile isSpace).drop p.length).takeWhile (fun c => c != '\n'),
        (((t.dropWhile isSpace).drop p.length).dropWhile (fun c => c != '\n')).takeWhile
          (fun c => c == '\n'), ?_, ?_, ?_, ?_, ?_, ?_, ?_⟩
      · simp only [List.append_assoc]
        conv_lhs => rw [← List.takeWhile_append_dropWhile isSpace t]
        congr 1
        conv_lhs => rw [← List.take_append_drop p.length (t.dropWhile isSpace)]
        congr 1
        conv_lhs => rw [← List.takeWhile_append_dropWhile (fun c => c != '\n')
          ((t.dropWhile isSpace).drop p.length)]
        congr 1
        conv_lhs => rw [← List.takeWhile_append_dropWhile (fun c => c == '\n')
          (((t.dropWhile isSpace).drop p.length).dropWhile (fun c => c != '\n'))]
      · intro c hc
        exact List.mem_takeWhile_imp hc
      · have hs := List.find?_some hf
        rw [ciStarts_map_take hs]
        exact List.mem_of_find?_eq_some hf
      · intro c hc
        simpa using List.mem_takeWhile_imp hc
      · cases hAL : (((t.dropWhile isSpace).drop p.length).dropWhile (fun c => c != '\n')) with
        | nil => exact absurd (by rw [hAL]; rfl) he
        | cons a al =>
          have ha : a = '\n' := by
            have := dropWhile_head_false hAL
            simpa using this
          rw [List.takeWhile_cons, if_pos (by simp [ha])]
          simp
      · intro c hc
        simpa using List.mem_takeWhile_imp hc
      · cases hr : (((t.dropWhile isSpace).drop p.length).dropWhile (fun c => c != '\n')).dropWhile
            (fun c => c == '\n') with
        | nil => simp
        | cons r rs =>
          have := dropWhile_head_false hr
          simp only [List.head?_cons, ne_eq, Option.some.injEq]
          intro hr2
          rw [hr2] at this
          simp at this

/-- If the cheerful-opener pattern does not fire on a text, it does not fire
on the stripped text either (stability of `dropOpenerCore` under `pyStrip`). -/
theorem dropOpenerCore_pyStrip {t : List Char} (h : dropOpenerCore t = t) :
    dropOpenerCore (pyStrip t) = pyStrip t := by
  have hpre0 : pyStrip t <+: stripLeft t := by
    rw [pyStrip]; exact stripRight_self (stripLeft t)
  obtain ⟨ext, hpre⟩ := hpre0
  have hps : (pyStrip t).dropWhile isSpace = pyStrip t := by
    cases hp : pyStrip t with
    | nil => rfl
    | cons c cs =>
      rw [hp] at hpre
      have h2 : t.dropWhile isSpace = c :: (cs ++ ext) := by
        rw [show t.dropWhile isSpace = stripLeft t from rfl, ← hpre]; simp
      have hc : isSpace c = false := dropWhile_head_false h2
      rw [List.dropWhile_cons, if_neg (by simp [hc])]
  cases hf : openersLC.find? (fun q => ciStarts q ((pyStrip t).dropWhile isSpace)) with
  | none => exact dropOpenerCore_eq_of_none hf
  | some p =>
    have hf2 : openersLC.find? (fun q => ciStarts q (pyStrip t)) = some p := by
      rw [← hps]; exact hf
    have hf3 : openersLC.find? (fun q => ciStarts q (t.dropWhile isSpace)) = some p := by
      have h4 := @find?_ciStarts_append openersLC openersLC_front_free (pyStrip t) ext p hf2
      rw [hpre] at h4
      exact h4
    have hcip := List.find?_some hf2
    have hplen : p.length ≤ (pyStrip t).length := ciStarts_length hcip
    have hALnil : ((t.dropWhile isSpace).drop p.length).dropWhile (fun c => c != '\n') = [] := by
      cases hAL : ((t.dropWhile isSpace).drop p.length).dropWhile (fun c => c != '\n') with
      | nil => rfl
      | cons a al =>
        exfalso
        have ha := dropWhile_head_false hAL
        have ha2 : a = '\n' := by simpa using ha
        have hres : dropOpenerCore t = (a :: al).dropWhile (fun c => c == '\n') := by
          rw [dropOpenerCore_eq_of_some hf3, if_neg (by rw [hAL]; simp), hAL]
        have hlen : ((a :: al).dropWhile (fun c => c == '\n')).length < t.length := by
          have l1 : ((a :: al).dropWhile (fun c => c == '\n')).length ≤ al.length := by
            rw [List.dropWhile_cons, if_pos (by simp [ha2])]
            exact length_dropWhile_le _ _
          have l2 : (a :: al).length ≤ ((t.dropWhile isSpace).drop p.length).length := by
            rw [← hAL]; exact length_dropWhile_le _ _
          have l3 : ((t.dropWhile isSpace).drop p.length).length
              ≤ (t.dropWhile isSpace).length := by
            simp [List.length_drop]
          have l4 : (t.dropWhile isSpace).length ≤ t.length := length_dropWhile_le _ _
          simp only [List.length_cons] at l2
          omega
        rw [h] at hres
        rw [← hres] at hlen
        exact lt_irrefl _ hlen
    have hmem : ∀ x ∈ (pyStrip t).drop p.length, (x != '\n') = true := by
      intro x hx
      have hsplit : (t.dropWhile isSpace).drop p.length
          = (pyStrip t).drop p.length ++ ext.drop (p.length - (pyStrip t).length) := by
        rw [show t.dropWhile isSpace = stripLeft t from rfl, ← hpre,
          List.drop_append_eq_append_drop]
      have hforall := List.dropWhile_eq_nil_iff.mp hALnil
      exact hforall x (by rw [hsplit]; exact List.mem_append_left _ hx)
    have hcond : ((((pyStrip t).dropWhile isSpace).drop p.length).dropWhile
        (fun c => c != '\n')).isEmpty = true := by
      rw [hps, List.isEmpty_iff, List.dropWhile_eq_nil_iff]
      exact hmem
    rw [dropOpenerCore_eq_of_some hf, if_pos hcond]

/-- `findStars` commutes with appending text after a successful scan. -/
theorem findStars_append {l r : List Char} (h : findStars l = some r) (e : List Char) :
    findStars (l ++ e) = some (r ++ e) := by
  induction l generalizing r with
  | nil => simp [findStars] at h
  | cons c rest ih =>
    rw [findStars] at h
    rw [List.cons_append, findStars]
    by_cases h1 : c = '*' ∧ rest.head? = some '*'
    · rw [if_pos h1] at h
      injection h with h
      cases rest with
      | nil => simp at h1
      | cons x xs =>
        rw [if_pos ⟨h1.1, by simpa using h1.2⟩, ← h]
        rfl
    · rw [if_neg h1] at h
      by_cases h2 : c = '\n'
      · rw [if_pos h2] at h
        exact absurd h (by simp)
      · rw [if_neg h2] at h
        cases rest with
        | nil => simp [findStars] at h
        | cons x xs =>
          rw [if_neg (by simpa using h1), if_neg h2]
          exact ih h

/-- `findStars` returns a suffix-length-bounded remainder. -/
theorem findStars_length {l r : List Char} (h : findStars l = some r) : r.length ≤ l.length := by
  induction l generalizing r with
  | nil => simp [findStars] at h
  | cons c rest ih =>
    rw [findStars] at h
    by_cases h1 : c = '*' ∧ rest.head? = some '*'
    · rw [if_pos h1] at h
      injection h with h
      rw [← h, List.length_tail, List.length_cons]
      omega
    · rw [if_neg h1] at h
      by_cases h2 : c = '\n'
      · rw [if_pos h2] at h
        exact absurd h (by simp)
      · rw [if_neg h2] at h
        have := ih h
        rw [List.length_cons]
        omega

/-- `afterColon` never lengthens its argument. -/
theorem afterColon_length (l : List Char) : (afterColon l).length ≤ l.length := by
  cases l with
  | nil => simp [afterColon]
  | cons c r =>
    simp only [afterColon]
    split
    · simp
    · exact Nat.le_refl _

/-- Length bound for `matchAfterDash`. -/
theorem matchAfterDash_length {r3 r : List Char} (h : matchAfterDash r3 = some r) :
    r.length ≤ r3.length := by
  simp only [matchAfterDash] at h
  split at h
  · rename_i r4 hs
    injection h with h
    rw [← h]
    have l1 := length_dropWhile_le isSpace (afterColon r4)
    have l2 := afterColon_length r4
    have l3 := findStars_length hs
    omega
  · simp at h

/-- `matchAfterDash` stays successful when text is appended. -/
theorem matchAfterDash_append {r3 r : List Char} (h : matchAfterDash r3 = some r) (e : List Char) :
    ∃ rr, matchAfterDash (r3 ++ e) = some rr := by
  simp only [matchAfterDash] at h ⊢
  cases hs : findStars r3 with
  | none => rw [hs] at h; simp at h
  | some r4 =>
    rw [findStars_append hs e]
    simp

/-- Length bound for `matchAfterWord`. -/
theorem matchAfterWord_length {r2 r : List Char} (h : matchAfterWord r2 = some r) :
    r.length ≤ r2.length := by
  simp only [matchAfterWord] at h
  split at h
  · simp at h
  · rename_i c r3 hd
    split at h
    · have l1 := matchAfterDash_length h
      have l2 := length_dropWhile_le isSpace r2
      rw [hd] at l2
      simp only [List.length_cons] at l2
      omega
    · simp at h

/-- `matchAfterWord` stays successful when text is appended. -/
theorem matchAfterWord_append {r2 r : List Char} (h : matchAfterWord r2 = some r) (e : List Char) :
    ∃ rr, matchAfterWord (r2 ++ e) = some rr := by
  simp only [matchAfterWord] at h ⊢
  split at h
  · simp at h
  · rename_i c r3 hd
    split at h
    · rename_i hc
      have hde : (r2 ++ e).dropWhile isSpace = c :: (r3 ++ e) := by
        rw [List.dropWhile_append, hd]
        simp
      rw [hde]
      show ∃ rr, (if c = '—' then matchAfterDash (r3 ++ e) else none) = some rr
      rw [if_pos hc]
      exact matchAfterDash_append h e
    · simp at h

/-- Length bound for `matchAfterStars`. -/
theorem matchAfterStars_length {r0 r : List Char} (h : matchAfterStars r0 = some r) :
    r.length ≤ r0.length := by
  simp only [matchAfterStars] at h
  split at h
  · rename_i w hw
    have l1 := matchAfterWord_length h
    have l2 := length_dropWhile_le isSpace r0
    have l3 : ((r0.dropWhile isSpace).drop w.length).length ≤ (r0.dropWhile isSpace).length := by
      simp [List.length_drop]
    omega
  · simp at h

/-- `matchAfterStars` stays successful when text is appended. -/
theorem matchAfterStars_append {r0 r : List Char} (h : matchAfterStars r0 = some r)
    (e : List Char) : ∃ rr, matchAfterStars (r0 ++ e) = some rr := by
  simp only [matchAfterStars] at h ⊢
  split at h
  · rename_i w hw
    have hcs := List.find?_some hw
    have hlen : w.length ≤ (r0.dropWhile isSpace).length := ciStarts_length hcs
    have hwne : w ≠ [] := by
      have hmem := List.mem_of_find?_eq_some hw
      intro hweq
      rw [hweq] at hmem
      exact absurd hmem (by decide)
    have hr1ne : r0.dropWhile isSpace ≠ [] := by
      intro hnil
      rw [hnil] at hlen
      simp only [List.length_nil, Nat.le_zero] at hlen
      exact hwne (List.length_eq_zero.mp hlen)
    have hde : (r0 ++ e).dropWhile isSpace = r0.dropWhile isSpace ++ e := by
      rw [List.dropWhile_append, if_neg (by simp [List.isEmpty_iff, hr1ne])]
    have hfe : ppfWords.find? (fun q => ciStarts q (r0.dropWhile isSpace ++ e)) = some w :=
      @find?_ciStarts_append ppfWords ppfWords_front_free (r0.dropWhile isSpace) e w hw
    rw [hde, hfe]
    show ∃ rr, matchAfterWord ((r0.dropWhile isSpace ++ e).drop w.length) = some rr
    rw [List.drop_append_eq_append_drop, Nat.sub_eq_zero_of_le hlen, List.drop_zero]
    exact matchAfterWord_append h e
  · simp at h

/-- A successful match consumes at least the two leading stars. -/
theorem matchPPFAt_length {l r : List Char} (h : matchPPFAt l = some r) :
    r.length < l.length := by
  cases l with
  | nil => simp [matchPPFAt] at h
  | cons c1 l2 =>
    cases l2 with
    | nil => simp [matchPPFAt] at h
    | cons c2 r0 =>
      simp only [matchPPFAt] at h
      split at h
      · have := matchAfterStars_length h
        simp only [List.length_cons]
        omega
      · simp at h

/-- A successful match stays successful when text is appended. -/
theorem matchPPFAt_isSome_append {l r : List Char} (h : matchPPFAt l = some r) (e : List Char) :
    ∃ rr, matchPPFAt (l ++ e) = some rr := by
  cases l with
  | nil => simp [matchPPFAt] at h
  | cons c1 l2 =>
    cases l2 with
    | nil => simp [matchPPFAt] at h
    | cons c2 r0 =>
      simp only [matchPPFAt] at h
      rw [List.cons_append, List.cons_append]
      simp only [matchPPFAt]
      split at h
      · rename_i hstar
        rw [if_pos hstar]
        exact matchAfterStars_append h e
      · simp at h

/-- The scanning loop never lengthens the text. -/
theorem ppfSubFuel_length_le : ∀ (f : Nat) (l : List Char),
    (ppfSubFuel f l).length ≤ l.length := by
  intro f
  induction f with
  | zero => intro l; cases l <;> simp [ppfSubFuel]
  | succ f ih =>
    intro l
    cases l with
    | nil => simp [ppfSubFuel]
    | cons c rest =>
      simp only [ppfSubFuel]
      split
      · rename_i rem hrem
        have h1 := ih rem
        have h2 := matchPPFAt_length hrem
        omega
      · simp only [List.length_cons]
        have := ih rest
        omega

/-- Any two sufficient fuels compute the same result. -/
theorem ppfSubFuel_congr : ∀ (f1 f2 : Nat) (l : List Char), l.length ≤ f1 → l.length ≤ f2 →
    ppfSubFuel f1 l = ppfSubFuel f2 l := by
  intro f1
  induction f1 with
  | zero =>
    intro f2 l h1 h2
    have hl : l = [] := List.length_eq_zero.mp (Nat.le_zero.mp h1)
    subst hl
    cases f2 <;> rfl
  | succ f ih =>
    intro f2 l h1 h2
    cases l with
    | nil => cases f2 <;> rfl
    | cons c rest =>
      cases f2 with
      | zero => simp at h2
      | succ f2b =>
        simp only [ppfSubFuel]
        split
        · rename_i rem hrem
          have hl := matchPPFAt_length hrem
          simp only [List.length_cons] at h1 h2 hl
          exact ih f2b rem (by omega) (by omega)
        · simp only [List.length_cons] at h1 h2
          rw [ih f2b rest (by omega) (by omega)]

/-- If the pattern matches at no suffix, the scanning loop is the identity. -/
theorem ppfSubFuel_eq_of_no_match {l : List Char}
    (h : ∀ s, s <:+ l → matchPPFAt s = none) : ∀ f, ppfSubFuel f l = l := by
  induction l with
  | nil => intro f; cases f <;> rfl
  | cons c rest ih =>
    intro f
    cases f with
    | zero => rfl
    | succ fb =>
      simp only [ppfSubFuel]
      rw [h (c :: rest) (List.suffix_refl _)]
      show c :: ppfSubFuel fb rest = c :: rest
      rw [ih (fun s hs => h s (hs.trans (List.suffix_cons c rest))) fb]

/-- If the pattern matches at some suffix, the scanning loop strictly
shortens the text. -/
theorem ppfSubFuel_shrink {l s0 r : List Char} (hs : s0 <:+ l)
    (hm : matchPPFAt s0 = some r) : ∀ f, l.length ≤ f → (ppfSubFuel f l).length < l.length := by
  induction l generalizing s0 r with
  | nil =>
    intro f hf
    have h0 : s0 = [] := List.suffix_nil.mp hs
    rw [h0] at hm
    simp [matchPPFAt] at hm
  | cons c rest ih =>
    intro f hf
    cases f with
    | zero => simp at hf
    | succ fb =>
      simp only [ppfSubFuel]
      split
      · rename_i rem hrem
        have h1 := ppfSubFuel_length_le fb rem
        have h2 := matchPPFAt_length hrem
        omega
      · rename_i hrem
        have hs2 : s0 <:+ rest := by
          rcases List.suffix_cons_iff.mp hs with h0 | h0
          · rw [h0] at hm
            rw [hm] at hrem
            exact absurd hrem (by simp)
          · exact h0
        simp only [List.length_cons] at hf
        have := ih hs2 hm fb (by omega)
        simp only [List.length_cons]
        omega

/-- If `ppfSub` fixes a text, the pattern matches at none of its suffixes. -/
theorem noPPF_of_ppfSub_eq {l : List Char} (h : ppfSub l = l) :
    ∀ s, s <:+ l → matchPPFAt s = none := by
  intro s hs
  cases hm : matchPPFAt s with
  | none => rfl
  | some r =>
    have hlt := ppfSubFuel_shrink hs hm l.length (Nat.le_refl _)
    rw [show ppfSubFuel l.length l = ppfSub l from rfl, h] at hlt
    exact absurd hlt (lt_irrefl _)

/-- Stability of `ppfSub` under `pyStrip`: a text with no Past/Present/Future
match keeps having none after stripping. -/
theorem ppfSub_pyStrip {t : List Char} (h : ppfSub t = t) : ppfSub (pyStrip t) = pyStrip t := by
  have hno := noPPF_of_ppfSub_eq h
  have hno2 : ∀ s, s <:+ pyStrip t → matchPPFAt s = none := by
    intro s hs
    obtain ⟨u, hu⟩ := hs
    have hpre0 : pyStrip t <+: stripLeft t := by
      rw [pyStrip]; exact stripRight_self (stripLeft t)
    obtain ⟨ext, hext⟩ := hpre0
    have hsuf : (s ++ ext) <:+ t := by
      have h1 : (s ++ ext) <:+ stripLeft t := by
        refine ⟨u, ?_⟩
        rw [← List.append_assoc, hu, hext]
      exact h1.trans (List.dropWhile_suffix isSpace)
    cases hm : matchPPFAt s with
    | none => rfl
    | some r =>
      obtain ⟨rr, hrr⟩ := matchPPFAt_isSome_append hm ext
      rw [hno (s ++ ext) hsuf] at hrr
      exact absurd hrr (by simp)
  rw [ppfSub]
  exact ppfSubFuel_eq_of_no_match hno2 (pyStrip t).length

/-- The daily marker survives `pyStrip` (its two ends are not whitespace). -/
theorem containsList_marker_pyStrip {t : List Char} (h : containsList dailyMarker t = true) :
    containsList dailyMarker (pyStrip t) = true := by
  rw [containsList_iff] at h ⊢
  have hshape : dailyMarker = '*' :: ((("*Daily Car").toList) ++ ['d']) := by decide
  rw [hshape] at h ⊢
  exact infix_pyStrip (by decide) (by decide) h

/-- A stripped text free of openers (and, in daily mode, free of
Past/Present/Future matches and already carrying the daily marker) is a fixed
point of `normalize_output`. -/
theorem normalize_output_fixed {req : SpreadRequest} {r : List Char}
    (h1 : dropOpenerCore r = r) (h2 : pyStrip r = r)
    (h3 : normalize_is_daily req = true → (ppfSub r = r ∧ containsList dailyMarker r = true)) :
    normalize_output req r = some r := by
  by_cases hd : normalize_is_daily req = true
  · obtain ⟨hp, hc⟩ := h3 hd
    simp only [normalize_output, h1, h2, hd, hp, hc, if_true]
  · have hd2 : normalize_is_daily req = false := by simpa using hd
    simp only [normalize_output, h1, h2, hd2, Bool.false_eq_true, if_false]

/-- On a text free of openers (and, in daily mode, free of
Past/Present/Future matches and already carrying the daily marker),
`normalize_output` just strips whitespace. -/
theorem normalize_output_of_clean {req : SpreadRequest} {t : List Char}
    (h1 : dropOpenerCore t = t)
    (h3 : normalize_is_daily req = true → (ppfSub t = t ∧ containsList dailyMarker t = true)) :
    normalize_output req t = some (pyStrip t) := by
  by_cases hd : normalize_is_daily req = true
  · obtain ⟨hp, hc⟩ := h3 hd
    have hps : ppfSub (pyStrip t) = pyStrip t := ppfSub_pyStrip hp
    have hcs : containsList dailyMarker (pyStrip t) = true := containsList_marker_pyStrip hc
    simp only [normalize_output, h1, hd, hps, pyStrip_idem, hcs, if_true]
  · have hd2 : normalize_is_daily req = false := by simpa using hd
    simp only [normalize_output, h1, hd2, Bool.false_eq_true, if_false, pyStrip_idem]

/-- A front of a list is an occurrence in it. -/
theorem front_isInfix {p l : List Char} (h : p <+: l) : p <:+: l := by
  obtain ⟨v, rfl⟩ := h
  exact ⟨[], v, rfl⟩

/-- `build_prompt` succeeds on every request with at least one card. -/
theorem build_prompt_isSome {req : SpreadRequest} (h : req.cards ≠ []) :
    ∃ p, build_prompt req = some p := by
  cases hc : req.cards with
  | nil => exact absurd hc h
  | cons c cs =>
    by_cases hd : build_prompt_is_daily req = true
    · refine ⟨pyStrip (dailyPromptRaw c), ?_⟩
      simp only [build_prompt, hd, if_true, hc, List.head?_cons]
    · have hd2 : build_prompt_is_daily req = false := by simpa using hd
      refine ⟨List.intercalate (("\n").toList) (multiHeaderLines ++ req.cards.map cardLine), ?_⟩
      simp only [build_prompt, hd2, Bool.false_eq_true, if_false]

/-- The daily header starts and ends with a star. -/
theorem dailyHeader_shape (c : TarotCardInput) :
    dailyHeader c = '*' :: ((("*Daily Card — ").toList ++ c.name ++ (" (").toList
      ++ orientationOf c ++ ([')', ':', '*'] : List Char)) ++ ['*']) := by
  have e1 : ("**Daily Card — ").toList = '*' :: ("*Daily Card — ").toList := by decide
  have e2 : ("):**").toList = ([')', ':', '*'] : List Char) ++ ['*'] := by decide
  rw [dailyHeader, e1, e2]
  simp [List.append_assoc]

/-- The daily header extends the daily marker. -/
theorem dailyHeader_marker (c : TarotCardInput) :
    dailyHeader c = dailyMarker ++ ((" — ").toList ++ c.name ++ (" (").toList
      ++ orientationOf c ++ ("):**").toList) := by
  have e1 : ("**Daily Card — ").toList = dailyMarker ++ (" — ").toList := by decide
  rw [dailyHeader, e1]
  simp [List.append_assoc]

/-- C1: a request with at least one card is classified as daily exactly when
`spread_type == "daily"` or it has exactly one card, and `build_prompt` and
`normalize_output` compute this classification identically (a single-card
request with a non-daily spread_type is treated as daily, since one disjunct
suffices). -/
theorem tarot_c1 (req : SpreadRequest) (h : req.cards ≠ []) :
    (build_prompt_is_daily req = true ↔
      (req.spread_type = ("daily").toList ∨ req.cards.length = 1))
    ∧ build_prompt_is_daily req = normalize_is_daily req := by
  constructor
  · simp [build_prompt_is_daily]
  · rfl

/-- Witness for C1 at a concrete single-card daily request. -/
theorem tarot_c1_witness :
    (build_prompt_is_daily wReqDaily = true ↔
      (wReqDaily.spread_type = ("daily").toList ∨ wReqDaily.cards.length = 1))
    ∧ build_prompt_is_daily wReqDaily = normalize_is_daily wReqDaily :=
  tarot_c1 wReqDaily (by decide)

/-- C4: the opener-stripping stage of `normalize_output` removes one leading
line (after leading whitespace, together with its trailing newline run)
exactly when the text decomposes as whitespace, a case-insensitive cheerful
opener, the rest of the line and one or more newlines; and the C4 example
evaluates as the claim states through the whole of `normalize_output`. -/
theorem tarot_c4 :
    (∀ t rest : List Char, openerDecomp t rest →
      dropOpenerCore t = rest ∧ rest.length < t.length)
    ∧ (∀ t : List Char, dropOpenerCore t ≠ t → ∃ rest, openerDecomp t rest)
    ∧ normalize_output wReqFool wC4Text
        = some (("**Daily Card — The Fool (Upright):**\nText.").toList) :=
  ⟨fun _ _ h => dropOpenerCore_of_decomp h, fun _ h => decomp_of_dropOpenerCore_ne h, by decide⟩

/-- Witness for C4 at a concrete opener-bearing text. -/
theorem tarot_c4_witness :
    dropOpenerCore (("  Sure! ok\n\nrest").toList) = ("rest").toList ∧
    (("rest").toList).length < (("  Sure! ok\n\nrest").toList).length :=
  tarot_c4.1 _ _ ⟨("  ").toList, ("Sure!").toList, (" ok").toList, ("\n\n").toList,
    by decide, by decide, by decide, by decide, by decide, by decide, by decide⟩

/-- Counterexample to C7 as stated: `wC7Text` is free of cheerful-opener
prefixes and already contains `**Daily Card`, yet normalizing twice differs
from normalizing once (removing the Past header exposes a cheerful opener). -/
theorem tarot_c7_cex :
    dropOpenerCore wC7Text = wC7Text
    ∧ containsList dailyMarker wC7Text = true
    ∧ normalize_is_daily wReqDaily = true
    ∧ normalize_output wReqDaily wC7Text = some wC7Once
    ∧ normalize_output wReqDaily wC7Once ≠ some wC7Once :=
  ⟨by decide, by decide, by decide, by decide, by decide⟩

/-- C7 (amended): `normalize_output` is idempotent for inputs free of
cheerful openers that additionally, in daily mode, contain no occurrence of
the Past/Present/Future header pattern and already contain `**Daily Card`. -/
theorem tarot_c7 (req : SpreadRequest) (t : List Char)
    (h1 : dropOpenerCore t = t)
    (h2 : normalize_is_daily req = true → (ppfSub t = t ∧ containsList dailyMarker t = true)) :
    ∃ r, normalize_output req t = some r ∧ normalize_output req r = some r := by
  refine ⟨pyStrip t, normalize_output_of_clean h1 h2, ?_⟩
  refine normalize_output_fixed (dropOpenerCore_pyStrip h1) (pyStrip_idem t) ?_
  intro hd
  obtain ⟨hp, hc⟩ := h2 hd
  exact ⟨ppfSub_pyStrip hp, containsList_marker_pyStrip hc⟩

/-- Witness for the amended C7 at a concrete clean daily text. -/
theorem tarot_c7_witness :
    ∃ r, normalize_output wReqDaily (("**Daily Card — A (Upright):**\nbody").toList) = some r
      ∧ normalize_output wReqDaily r = some r :=
  tarot_c7 wReqDaily (("**Daily Card — A (Upright):**\nbody").toList) (by decide)
    (fun _ => ⟨by decide, by decide⟩)

/-- C8: an empty card list yields status 400 with detail "No cards provided";
the result does not depend on the completion call (no call is made) and no
prompt is built on this path. -/
theorem tarot_c8 (call : List Char → UpstreamResult) (req : SpreadRequest)
    (h : req.cards = []) :
    interpret_spread call req = some (HttpOutcome.failure 400 noCardsDetail) := by
  simp [interpret_spread, h]

/-- Witness for C8 at the concrete empty request. -/
theorem tarot_c8_witness :
    interpret_spread (fun _ => UpstreamResult.ok []) wReqEmpty
      = some (HttpOutcome.failure 400 noCardsDetail) :=
  tarot_c8 (fun _ => UpstreamResult.ok []) wReqEmpty rfl

/-- C9: when the completion call raises with message `m` on a non-empty
request, the endpoint returns status 500 with detail
`"OpenAI request failed: " ++ m`; the single modelled call admits no retry
and no partial result. -/
theorem tarot_c9 (req : SpreadRequest) (m : List Char) (h : req.cards ≠ []) :
    interpret_spread (fun _ => UpstreamResult.err m) req
      = some (HttpOutcome.failure 500 (failDetailPre ++ m)) := by
  obtain ⟨p, hp⟩ := build_prompt_isSome h
  simp [interpret_spread, List.isEmpty_iff, h, hp]

/-- Witness for C9: the spec's simulated "timeout" failure. -/
theorem tarot_c9_witness :
    interpret_spread (fun _ => UpstreamResult.err (("timeout").toList)) wReqMulti
      = some (HttpOutcome.failure 500 (failDetailPre ++ ("timeout").toList)) :=
  tarot_c9 wReqMulti (("timeout").toList) (by decide)

/-- C5: for a daily request whose text, after opener stripping and
Past/Present/Future removal, lacks the literal `**Daily Card`,
`normalize_output` prepends the header built from the first card's name and
orientation. -/
theorem tarot_c5 (req : SpreadRequest) (c : TarotCardInput) (cs : List TarotCardInput)
    (t : List Char) (hc : req.cards = c :: cs) (hd : normalize_is_daily req = true)
    (hm : containsList dailyMarker (pyStrip (ppfSub (pyStrip (dropOpenerCore t)))) = false) :
    ∃ r, normalize_output req t = some r ∧ dailyHeader c <+: r ∧
      r = pyStrip (pyStrip (dailyHeader c
            ++ ('\n' :: pyStrip (ppfSub (pyStrip (dropOpenerCore t)))))) := by
  have hr : normalize_output req t
      = some (pyStrip (pyStrip (dailyHeader c
          ++ ('\n' :: pyStrip (ppfSub (pyStrip (dropOpenerCore t))))))) := by
    simp only [normalize_output, hd, if_true, hm, Bool.false_eq_true, if_false, hc,
      List.head?_cons]
  refine ⟨_, hr, ?_, rfl⟩
  rw [dailyHeader_shape c]
  apply front_pyStrip (by decide) (by decide)
  apply front_pyStrip (by decide) (by decide)
  exact ⟨_, rfl⟩

/-- Witness for C5: The Sun reversed over a marker-free text. -/
theorem tarot_c5_witness :
    ∃ r, normalize_output wReqSun (("hello").toList) = some r ∧ dailyHeader wCardSun <+: r ∧
      r = pyStrip (pyStrip (dailyHeader wCardSun
            ++ ('\n' :: pyStrip (ppfSub (pyStrip (dropOpenerCore (("hello").toList))))))) :=
  tarot_c5 wReqSun wCardSun [] (("hello").toList) rfl (by decide) (by decide)

/-- C10: on every daily request with at least one card, `normalize_output`
succeeds, its result contains `**Daily Card`, and the result carries no
leading or trailing whitespace. -/
theorem tarot_c10 (req : SpreadRequest) (c : TarotCardInput) (cs : List TarotCardInput)
    (t : List Char) (hc : req.cards = c :: cs) (hd : normalize_is_daily req = true) :
    ∃ r, normalize_output req t = some r ∧ containsList dailyMarker r = true
      ∧ pyStrip r = r := by
  by_cases hm : containsList dailyMarker (pyStrip (ppfSub (pyStrip (dropOpenerCore t)))) = true
  · refine ⟨pyStrip (ppfSub (pyStrip (dropOpenerCore t))), ?_, hm, pyStrip_idem _⟩
    simp only [normalize_output, hd, if_true, hm, pyStrip_idem]
  · have hm2 : containsList dailyMarker (pyStrip (ppfSub (pyStrip (dropOpenerCore t)))) = false := by
      simpa using hm
    refine ⟨pyStrip (pyStrip (dailyHeader c
        ++ ('\n' :: pyStrip (ppfSub (pyStrip (dropOpenerCore t)))))), ?_, ?_, pyStrip_idem _⟩
    · simp only [normalize_output, hd, if_true, hm2, Bool.false_eq_true, if_false, hc,
        List.head?_cons]
    · rw [containsList_iff]
      have hpref : dailyMarker <+: (dailyHeader c
          ++ ('\n' :: pyStrip (ppfSub (pyStrip (dropOpenerCore t))))) := by
        rw [dailyHeader_marker c]
        refine ⟨(" — ").toList ++ c.name ++ (" (").toList ++ orientationOf c
          ++ ("):**").toList ++ ('\n' :: pyStrip (ppfSub (pyStrip (dropOpenerCore t)))), ?_⟩
        simp [List.append_assoc]
      have hshape : dailyMarker = '*' :: ((("*Daily Car").toList) ++ ['d']) := by decide
      rw [hshape] at hpref ⊢
      exact front_isInfix (front_pyStrip (by decide) (by decide)
        (front_pyStrip (by decide) (by decide) hpref))

/-- Witness for C10 at a concrete marker-free text. -/
theorem tarot_c10_witness :
    ∃ r, normalize_output wReqDaily (("anything").toList) = some r
      ∧ containsList dailyMarker r = true ∧ pyStrip r = r :=
  tarot_c10 wReqDaily wCardA [] (("anything").toList) rfl (by decide)

/-- Counterexample to C2 as stated: a daily card whose upright meaning ends
in whitespace ("zq \t") is not contained verbatim in the built prompt,
because `build_prompt` strips the prompt's trailing whitespace. -/
theorem tarot_c2_cex :
    (build_prompt wReqZq).map (fun p => containsList (meaningOf wCardZq) p) = some false :=
  by decide

/-- C2 (amended): the daily prompt contains "SINGLE CARD daily draw" and the
first card's orientation-correct meaning trimmed of trailing whitespace; the
meaning itself appears verbatim whenever it has no trailing whitespace. -/
theorem tarot_c2 (req : SpreadRequest) (c : TarotCardInput) (cs : List TarotCardInput)
    (hc : req.cards = c :: cs) (hd : build_prompt_is_daily req = true) :
    ∃ p, build_prompt req = some p
      ∧ ("SINGLE CARD daily draw").toList <:+: p
      ∧ stripRight (meaningOf c) <:+: p
      ∧ (stripRight (meaningOf c) = meaningOf c → meaningOf c <:+: p) := by
  have hbp : build_prompt req = some (pyStrip (dailyPromptRaw c)) := by
    simp only [build_prompt, hd, if_true, hc, List.head?_cons]
  have hph : ("SINGLE CARD daily draw").toList <:+: pyStrip (dailyPromptRaw c) := by
    have hinf : ("SINGLE CARD daily draw").toList <:+: dailyPromptRaw c := by
      have h1 : ("SINGLE CARD daily draw").toList <:+: dailyPromptPre := by
        rw [← containsList_iff]; decide
      obtain ⟨u, v, huv⟩ := h1
      rw [dailyPromptRaw]
      refine ⟨u, v ++ (dailyHeader c ++ dailyPromptPost ++ meaningOf c ++ ("\n").toList), ?_⟩
      rw [← huv]
      simp [List.append_assoc]
    have hshape : ("SINGLE CARD daily draw").toList
        = 'S' :: (("INGLE CARD daily dra").toList ++ ['w']) := by decide
    rw [hshape] at hinf ⊢
    exact infix_pyStrip (by decide) (by decide) hinf
  have hmean : stripRight (meaningOf c) <:+: pyStrip (dailyPromptRaw c) := by
    by_cases hsm : stripRight (meaningOf c) = []
    · rw [hsm]
      exact ⟨[], pyStrip (dailyPromptRaw c), by simp⟩
    · have hA : stripLeft (dailyPromptRaw c)
          = (stripLeft dailyPromptPre ++ (dailyHeader c ++ dailyPromptPost))
            ++ (meaningOf c ++ ("\n").toList) := by
        rw [dailyPromptRaw]
        have hassoc : dailyPromptPre ++ dailyHeader c ++ dailyPromptPost ++ meaningOf c
              ++ ("\n").toList
            = dailyPromptPre ++ (dailyHeader c ++ dailyPromptPost
              ++ (meaningOf c ++ ("\n").toList)) := by
          simp [List.append_assoc]
        rw [show stripLeft (dailyPromptPre ++ dailyHeader c ++ dailyPromptPost ++ meaningOf c
              ++ ("\n").toList)
            = (dailyPromptPre ++ dailyHeader c ++ dailyPromptPost ++ meaningOf c
              ++ ("\n").toList).dropWhile isSpace from rfl]
        rw [hassoc, List.dropWhile_append, if_neg (by decide)]
        show dailyPromptPre.dropWhile isSpace ++ _ = _
        simp [stripLeft, List.append_assoc]
      have hnl : ("\n").toList = ['\n'] := by decide
      have hms : stripRight (meaningOf c ++ ("\n").toList) = stripRight (meaningOf c) := by
        rw [hnl]
        exact stripRight_append_space (by decide)
      have hps : pyStrip (dailyPromptRaw c)
          = (stripLeft dailyPromptPre ++ (dailyHeader c ++ dailyPromptPost))
            ++ stripRight (meaningOf c) := by
        rw [pyStrip, hA, stripRight_append_left (by rw [hms]; exact hsm), hms]
      rw [hps]
      exact ⟨stripLeft dailyPromptPre ++ (dailyHeader c ++ dailyPromptPost), [], by simp⟩
  exact ⟨_, hbp, hph, hmean, fun heq => heq ▸ hmean⟩

/-- Witness for the amended C2: The Sun reversed. -/
theorem tarot_c2_witness :
    ∃ p, build_prompt wReqSun = some p
      ∧ ("SINGLE CARD daily draw").toList <:+: p
      ∧ stripRight (meaningOf wCardSun) <:+: p
      ∧ (stripRight (meaningOf wCardSun) = meaningOf wCardSun → meaningOf wCardSun <:+: p) :=
  tarot_c2 wReqSun wCardSun [] rfl (by decide)

/-- Counterexample to C6 as stated: on a daily request an empty successful
upstream response yields the fallback text with the Daily Card header
prepended, not the fallback apology string itself. -/
theorem tarot_c6_cex :
    interpret_spread (fun _ => UpstreamResult.ok []) wReqDaily
        = some (HttpOutcome.success (dailyHeader wCardA ++ ('\n' :: fallbackText)))
    ∧ interpret_spread (fun _ => UpstreamResult.ok []) wReqDaily
        ≠ some (HttpOutcome.success fallbackText) :=
  ⟨by decide, by decide⟩

/-- C6 (amended): when the upstream call succeeds and the concatenated text
strips to the empty string, the text substituted before normalization is the
fixed fallback apology, and the returned interpretation is its normalization:
the fallback itself for non-daily requests, and the fallback prefixed with
the Daily Card header line for daily requests. -/
theorem tarot_c6 (req : SpreadRequest) (c : TarotCardInput) (cs : List TarotCardInput)
    (out : List OutputItem) (hc : req.cards = c :: cs)
    (he : pyStrip (extractText out) = []) :
    ∃ r, normalize_output req fallbackText = some r
      ∧ interpret_spread (fun _ => UpstreamResult.ok out) req = some (HttpOutcome.success r)
      ∧ (normalize_is_daily req = false → r = fallbackText)
      ∧ (normalize_is_daily req = true → r = dailyHeader c ++ ('\n' :: fallbackText)) := by
  have hnonempty : req.cards ≠ [] := by rw [hc]; exact List.cons_ne_nil c cs
  obtain ⟨p, hp⟩ := build_prompt_isSome hnonempty
  have hroute : ∀ r, normalize_output req fallbackText = some r →
      interpret_spread (fun _ => UpstreamResult.ok out) req = some (HttpOutcome.success r) := by
    intro r hr
    simp only [interpret_spread, List.isEmpty_iff, hp, he]
    rw [if_neg (by simp [List.isEmpty_iff, hc])]
    simp only [List.isEmpty_nil, if_true, hr]
  by_cases hd : normalize_is_daily req = true
  · have hnorm : normalize_output req fallbackText
        = some (dailyHeader c ++ ('\n' :: fallbackText)) := by
      have hstep : normalize_output req fallbackText
          = some (pyStrip (pyStrip (dailyHeader c ++ ('\n' :: fallbackText)))) := by
        simp only [normalize_output, hd, if_true, hc, List.head?_cons]
        rw [show pyStrip (dropOpenerCore fallbackText) = fallbackText from by decide]
        rw [show pyStrip (ppfSub fallbackText) = fallbackText from by decide]
        rw [show containsList dailyMarker fallbackText = false from by decide]
        simp
      have hid : pyStrip (dailyHeader c ++ ('\n' :: fallbackText))
          = dailyHeader c ++ ('\n' :: fallbackText) := by
        apply pyStrip_eq_self
        · intro x hx
          rw [dailyHeader_shape c, List.cons_append, List.head?_cons] at hx
          injection hx with hx
          rw [← hx]
          decide
        · intro x hx
          rw [List.getLast?_append,
            show ('\n' :: fallbackText).getLast? = some '.' from by decide] at hx
          injection hx with hx
          rw [← hx]
          decide
      rw [hstep, hid, hid]
    exact ⟨_, hnorm, hroute _ hnorm, fun hf => absurd hd (by simp [hf]), fun _ => rfl⟩
  · have hd2 : normalize_is_daily req = false := by simpa using hd
    have hnorm : normalize_output req fallbackText = some fallbackText := by
      simp only [normalize_output, hd2, Bool.false_eq_true, if_false]
      rw [show pyStrip (pyStrip (dropOpenerCore fallbackText)) = fallbackText from by decide]
    exact ⟨_, hnorm, hroute _ hnorm, fun _ => rfl, fun ht => absurd ht (by simp [hd2])⟩

/-- Witness for the amended C6 at a concrete two-card request with an empty
upstream output. -/
theorem tarot_c6_witness :
    ∃ r, normalize_output wReqMulti fallbackText = some r
      ∧ interpret_spread (fun _ => UpstreamResult.ok []) wReqMulti
          = some (HttpOutcome.success r)
      ∧ (normalize_is_daily wReqMulti = false → r = fallbackText)
      ∧ (normalize_is_daily wReqMulti = true → r = dailyHeader wCardP1 ++ ('\n' :: fallbackText)) :=
  tarot_c6 wReqMulti wCardP1 [wCardP2] [] rfl (by decide)

/-- A card line contains no newline when none of the card's rendered fields
does. -/
theorem newline_notin_cardLine {c : TarotCardInput}
    (h1 : '\n' ∉ c.position) (h2 : '\n' ∉ c.name) (h3 : '\n' ∉ c.upright_meaning)
    (h4 : '\n' ∉ c.reversed_meaning) : '\n' ∉ cardLine c := by
  intro hmem
  rw [cardLine] at hmem
  cases hr : c.is_reversed <;>
    simp only [orientationOf, meaningOf, hr, if_true, if_false, Bool.false_eq_true,
      List.mem_append] at hmem <;>
    rcases hmem with ((((((h | h) | h) | h) | h) | h) | h) | h <;>
    first
      | exact absurd h (by decide)
      | exact h1 h
      | exact h2 h
      | exact h3 h
      | exact h4 h

/-- No fixed preamble line of the multi-card prompt is a card line. -/
theorem cardLine_notin_header (c : TarotCardInput) : cardLine c ∉ multiHeaderLines := by
  intro hmem
  have h12 : ∀ l ∈ multiHeaderLines, l.take 12 ≠ ("- Position: ").toList := by decide
  have htake : (cardLine c).take 12 = ("- Position: ").toList := by
    have hshape : cardLine c = ("- Position: ").toList
        ++ (c.position ++ (" | Card: ").toList ++ c.name
          ++ (" | Orientation: ").toList ++ orientationOf c
          ++ (" | MeaningRef: ").toList ++ meaningOf c) := by
      rw [cardLine]
      simp [List.append_assoc]
    rw [hshape, List.take_left' (by decide)]
  exact h12 _ hmem htake

/-- C3: the multi-card prompt is the fixed preamble followed by exactly one
rendered line per input card, separated by newlines, in input order, each
line carrying the card's orientation-correct label and meaning; and when no
rendered field contains a newline, splitting the prompt into lines yields
exactly as many copies of a card's line as there are cards rendering to it. -/
theorem tarot_c3 (req : SpreadRequest) (hnd : build_prompt_is_daily req = false) :
    build_prompt req
      = some (List.intercalate ['\n'] (multiHeaderLines ++ req.cards.map cardLine))
    ∧ (∀ c ∈ req.cards, cardLine c
        = ("- Position: ").toList ++ c.position ++ (" | Card: ").toList ++ c.name
            ++ (" | Orientation: ").toList
            ++ (if c.is_reversed then ("Reversed").toList else ("Upright").toList)
            ++ (" | MeaningRef: ").toList
            ++ (if c.is_reversed then c.reversed_meaning else c.upright_meaning))
    ∧ ((∀ c ∈ req.cards, '\n' ∉ c.position ∧ '\n' ∉ c.name ∧ '\n' ∉ c.upright_meaning
          ∧ '\n' ∉ c.reversed_meaning) →
        ∀ c ∈ req.cards,
          ((List.intercalate ['\n'] (multiHeaderLines ++ req.cards.map cardLine)).splitOn
              '\n').count (cardLine c)
            = req.cards.countP (fun c2 => cardLine c2 == cardLine c)) := by
  refine ⟨?_, ?_, ?_⟩
  · simp only [build_prompt, hnd, Bool.false_eq_true, if_false]
    rw [show ("\n").toList = ['\n'] from by decide]
  · intro c _
    rw [cardLine, orientationOf, meaningOf]
  · intro hnl c hcmem
    have hsplit : (List.intercalate ['\n']
        (multiHeaderLines ++ req.cards.map cardLine)).splitOn '\n'
        = multiHeaderLines ++ req.cards.map cardLine := by
      apply List.splitOn_intercalate
      · intro l hl
        rcases List.mem_append.mp hl with h | h
        · exact (show ∀ l2 ∈ multiHeaderLines, '\n' ∉ l2 from by decide) l h
        · obtain ⟨c2, hc2, rfl⟩ := List.mem_map.mp h
          obtain ⟨m1, m2, m3, m4⟩ := hnl c2 hc2
          exact newline_notin_cardLine m1 m2 m3 m4
      · simp [multiHeaderLines]
    rw [hsplit, List.count_append]
    rw [List.count_eq_zero.mpr (cardLine_notin_header c), Nat.zero_add]
    rw [List.count_eq_countP, List.countP_map]
    rfl

/-- Witness for C3: counting The Magician's line in the two-card prompt. -/
theorem tarot_c3_witness :
    ((List.intercalate ['\n'] (multiHeaderLines ++ wReqMulti.cards.map cardLine)).splitOn
        '\n').count (cardLine wCardP1)
      = wReqMulti.cards.countP (fun c2 => cardLine c2 == cardLine wCardP1) :=
  (tarot_c3 wReqMulti (by decide)).2.2 (by decide) wCardP1 (by decide)
